import Mathlib

/-!
Shallow embedding of the monke expense tracker (Go) and verification of its
specification claims.  Real-valued amounts (Go float64) are modelled by ℚ,
Go ints by ℤ, SQL NULL-able category text by Option String.
-/

namespace Monke

/-- Expense record, from the Go struct Expense (db.go): id, title, amount,
day, category.  The category is Option String because the database column is
nullable and is scanned through sql.NullString in lsCmd (list.go). -/
structure Expense where
  id : ℤ
  title : String
  amount : ℚ
  day : ℤ
  category : Option String
deriving DecidableEq

/-- Status classification of a table row, one constructor per distinct
statusOutput value assigned in the renderExpenseTable loop (list.go 140-159):
colorPast, colorToday, colorFutureNear, colorFutureMid, and the plain
(uncolored) indicator. -/
inductive RowStatus where
  | past
  | today
  | futureNear
  | futureMid
  | unmarked
deriving DecidableEq

/-- Row status selection, translated branch for branch from the
renderExpenseTable loop in list.go lines 144-159:
if expenseDay == currentDay use today; else if expenseDay < currentDay use
past; else let dayDiffFuture := expenseDay - currentDay and bucket it:
greater than 5 unmarked, in (0,3] near future, in (3,5] mid future,
otherwise unmarked. -/
def rowStatus (expenseDay currentDay : ℤ) : RowStatus :=
  if expenseDay = currentDay then RowStatus.today
  else if expenseDay < currentDay then RowStatus.past
  else
    let dayDiffFuture := expenseDay - currentDay
    if dayDiffFuture > 5 then RowStatus.unmarked
    else if dayDiffFuture > 0 ∧ dayDiffFuture ≤ 3 then RowStatus.futureNear
    else if dayDiffFuture > 3 ∧ dayDiffFuture ≤ 5 then RowStatus.futureMid
    else RowStatus.unmarked

/-- Percentage of a category, from the guarded computation repeated in
generateColoredLine (list.go 202-205), printSummaryTotals (list.go 236-239)
and lsCmd (main.go 221-224):
percentage := 0.0; if totalAmount > 0 then percentage becomes
(categoryTotal / totalAmount) * 100. -/
def percentageOf (categoryTotal totalAmount : ℚ) : ℚ :=
  if totalAmount > 0 then categoryTotal / totalAmount * 100 else 0

/-- Go math.Round (round half away from zero) followed by conversion to int,
as used in generateColoredLine (list.go 207).  math.Round returns an
integral float, so the int conversion is exact. -/
def mathRound (x : ℚ) : ℤ :=
  if x < 0 then -(Rat.floor (-x + 1/2)) else Rat.floor (x + 1/2)

/-- Segment length computed for one category of the generateColoredLine
loop (list.go 207):
min(int(math.Round(percentage/100.0*float64(totalLineWidth))),
remainingWidth). -/
def segmentOf (totalLineWidth : ℤ) (categoryTotalsMap : String → ℚ)
    (totalAmount : ℚ) (cat : String) (remainingWidth : ℤ) : ℤ :=
  min (mathRound (percentageOf (categoryTotalsMap cat) totalAmount / 100 *
    (totalLineWidth : ℚ))) remainingWidth

/-- Per-category allocated segment lengths of the colored line, from the loop
of generateColoredLine (list.go 200-217): for each category in order,
segmentLength := min(int(math.Round(percentage/100.0*float64(totalLineWidth))),
remainingWidth) and remainingWidth decreases by segmentLength.  The second
argument is the running remainingWidth (initially totalLineWidth). -/
def segmentLengths (totalLineWidth : ℤ) (categoryTotalsMap : String → ℚ)
    (totalAmount : ℚ) : List String → ℤ → List ℤ
  | [], _ => []
  | cat :: rest, remainingWidth =>
    let segmentLength :=
      min (mathRound (percentageOf (categoryTotalsMap cat) totalAmount / 100 *
        (totalLineWidth : ℚ))) remainingWidth
    segmentLength ::
      segmentLengths totalLineWidth categoryTotalsMap totalAmount rest
        (remainingWidth - segmentLength)

/-- Colored chunks written by generateColoredLine (list.go 200-224): each
WriteString of a repeated lineCharacter run is recorded as a pair of the
category whose color wraps it and the repeat count.  strings.Repeat panics
when the count is negative, so a negative segmentLength aborts the loop
before anything further is written; that panic is modelled as none
(list.go 215).  On the last category, when remainingWidth is still positive
after its own segment, an extra run of that leftover width is written in
the same color (list.go 219-223); its count is positive by the guard, so it
never panics. -/
def coloredLineChunks (totalLineWidth : ℤ) (categoryTotalsMap : String → ℚ)
    (totalAmount : ℚ) : List String → ℤ → Option (List (String × ℤ))
  | [], _ => some []
  | cat :: rest, remainingWidth =>
    let segmentLength :=
      segmentOf totalLineWidth categoryTotalsMap totalAmount cat remainingWidth
    if segmentLength < 0 then
      none
    else
      let remainingWidth2 := remainingWidth - segmentLength
      if rest.isEmpty ∧ 0 < remainingWidth2 then
        some [(cat, segmentLength), (cat, remainingWidth2)]
      else
        (coloredLineChunks totalLineWidth categoryTotalsMap totalAmount rest
            remainingWidth2).map
          (fun tail => (cat, segmentLength) :: tail)

/-- The colored line of generateColoredLine (list.go 196-226), abstracted to
its list of colored chunks; the remainingWidth budget starts at
totalLineWidth, and none records the strings.Repeat panic on a negative
segment count. -/
def generateColoredLine (categories : List String)
    (categoryTotalsMap : String → ℚ) (totalAmount : ℚ)
    (totalLineWidth : ℤ) : Option (List (String × ℤ)) :=
  coloredLineChunks totalLineWidth categoryTotalsMap totalAmount categories
    totalLineWidth

/-- Chart ordering relation: a may come no later than b exactly when the
sort.Slice comparator of renderExpenseTable (list.go 186-188),
categoryTotalsMap[b] greater than categoryTotalsMap[a], does not place b
strictly before a.  The same descending-by-total order is requested by
chartCmd via ORDER BY total DESC (main.go 235-243). -/
def chartLe (categoryTotalsMap : String → ℚ) (a b : String) : Prop :=
  categoryTotalsMap b ≤ categoryTotalsMap a

instance (m : String → ℚ) : DecidableRel (chartLe m) :=
  fun a b => inferInstanceAs (Decidable (m b ≤ m a))

instance (m : String → ℚ) : IsTotal String (chartLe m) :=
  ⟨fun a b => le_total (m b) (m a)⟩

instance (m : String → ℚ) : IsTrans String (chartLe m) :=
  ⟨fun _ _ _ hab hbc => le_trans hbc hab⟩

/-- Category list sorted descending by total, modelling the sort.Slice call
of renderExpenseTable (list.go 186-188); the resulting list is used both for
the colored line and as the print order of printSummaryTotals. -/
def sortByTotalDesc (categoryTotalsMap : String → ℚ)
    (categories : List String) : List String :=
  List.insertionSort (chartLe categoryTotalsMap) categories

/-- The sort.Slice comparator of lsCmd (main.go 209-217): Uncategorized is
never less than anything, everything else is less than Uncategorized, and
remaining pairs compare case-insensitively. -/
def lsLess (a b : String) : Bool :=
  if a = "Uncategorized" then false
  else if b = "Uncategorized" then true
  else decide (a.toLower < b.toLower)

/-- The non-strict order induced by lsLess: a may come no later than b
exactly when the comparator does not place b strictly before a. -/
def lsLe (a b : String) : Prop :=
  lsLess b a = false

instance : DecidableRel lsLe :=
  fun a b => inferInstanceAs (Decidable (lsLess b a = false))

/-- Category summary print order of lsCmd (main.go 205-217): the keys of the
category totals map sorted with the lsLess comparator. -/
def summaryOrder (categories : List String) : List String :=
  List.insertionSort lsLe categories

instance : IsTotal String lsLe := by
  constructor
  intro a b
  by_cases h : lsLess b a = false
  · exact Or.inl h
  · right
    have h1 : lsLess b a = true := by simpa using h
    by_cases ha : a = "Uncategorized"
    · simp [lsLe, lsLess, ha]
    · by_cases hb : b = "Uncategorized"
      · simp [lsLess, hb] at h1
      · simp [lsLess, ha, hb] at h1
        simp [lsLe, lsLess, ha, hb]
        exact le_of_lt h1

instance : IsTrans String lsLe := by
  constructor
  intro a b c hab hbc
  unfold lsLe at *
  by_cases hc : c = "Uncategorized"
  · simp [lsLess, hc]
  · by_cases ha : a = "Uncategorized"
    · by_cases hb : b = "Uncategorized"
      · simp [lsLess, hb, hc] at hbc
      · simp [lsLess, ha, hb] at hab
    · by_cases hb : b = "Uncategorized"
      · simp [lsLess, hb, hc] at hbc
      · simp [lsLess, ha, hb] at hab
        simp [lsLess, hb, hc] at hbc
        simp [lsLess, ha, hc]
        exact le_trans hab hbc

/-- Display name of a category, from the lsCmd row loop (list.go 72-78):
displayCategory starts as Uncategorized and becomes the stored category only
when the scanned value is valid (non-NULL) and non-empty. -/
def displayCategory : Option String → String
  | some s => if s ≠ "" then s else "Uncategorized"
  | none => "Uncategorized"

/-- Accumulator of the lsCmd aggregation loop (list.go 56-84):
categoryTotalsMap (zero outside its recorded keys), the key set of
uniqueCategories in first-seen order, and the running totalAmount. -/
structure LsAgg where
  categoryTotalsMap : String → ℚ
  uniqueCategories : List String
  totalAmount : ℚ

/-- One iteration of the lsCmd row loop (list.go 62-84):
categoryTotalsMap[displayCategory] += exp.Amount, uniqueCategories gains the
display category, and totalAmount += exp.Amount. -/
def lsAggStep (acc : LsAgg) (exp : Expense) : LsAgg :=
  let dc := displayCategory exp.category
  { categoryTotalsMap :=
      Function.update acc.categoryTotalsMap dc
        (acc.categoryTotalsMap dc + exp.amount)
    uniqueCategories :=
      if dc ∈ acc.uniqueCategories then acc.uniqueCategories
      else acc.uniqueCategories ++ [dc]
    totalAmount := acc.totalAmount + exp.amount }

/-- The whole lsCmd aggregation loop (list.go 56-84) over the scanned
expense rows, starting from an empty map and zero total. -/
def lsAggregate (expenses : List Expense) : LsAgg :=
  expenses.foldl lsAggStep
    { categoryTotalsMap := fun _ => 0, uniqueCategories := [], totalAmount := 0 }

/-- Database state: stored expense rows plus the sqlite AUTOINCREMENT
sequence value for the expenses table (the id handed to the next insert is
seq + 1). -/
structure DBState where
  records : List Expense
  seq : ℤ
deriving DecidableEq

/-- The add command handler (src/unnamed/part_000 lines 12-37): log.Fatal on
empty title, log.Fatalf on a day outside 1..28 (both modelled as
Except.error, terminating with a diagnostic before any insert), otherwise
the INSERT appends one row whose id is the next sequence value. -/
def addCmd (title : String) (amount : ℚ) (day : ℤ) (category : String)
    (st : DBState) : Except String DBState :=
  if title = "" then
    Except.error "Error: title flag is required."
  else if day < 1 ∨ day > 28 then
    Except.error "Error: Invalid day. Please provide a day between 1 and 28."
  else
    Except.ok
      { records := st.records ++
          [{ id := st.seq + 1, title := title, amount := amount, day := day,
             category := some category }]
        seq := st.seq + 1 }

/-- Normalization applied by the clear command to the line read from the
user, strings.TrimSpace(strings.ToLower(input)) in part_001 line 20,
modelled on the character list: lowercase every character, then drop
whitespace from both ends. -/
def normalizeInput (input : String) : List Char :=
  (((input.data.map Char.toLower).dropWhile Char.isWhitespace).reverse.dropWhile
      Char.isWhitespace).reverse

/-- The clear command handler (src/unnamed/part_001 lines 16-38): the read
line is lowercased then trimmed; on "y" or "yes" all rows are deleted and
the sqlite_sequence row is removed (next id restarts at 1), with the success
message; on anything else the state is untouched and the cancellation
message is printed. -/
def clearCmd (input : String) (st : DBState) : DBState × String :=
  if normalizeInput input = "y".data ∨ normalizeInput input = "yes".data then
    ({ records := [], seq := 0 }, "All expenses have been deleted.")
  else
    (st, "Operation cancelled.")

/-- Helper: the guarded percentage is zero for every non-positive grand
total, because the guard tests strict positivity. -/
theorem percentageOf_nonpos (categoryTotal : ℚ) {totalAmount : ℚ}
    (h : totalAmount ≤ 0) : percentageOf categoryTotal totalAmount = 0 := by
  unfold percentageOf
  rw [if_neg (not_lt.mpr h)]

/-- C9: the row status is a pure function of (expenseDay, currentDay): past
when the expense day is before the current day, today on equality, near
future for a difference of 1 to 3 days, mid future for 4 to 5 days, and
unmarked otherwise. -/
theorem rowStatus_classification (expenseDay currentDay : ℤ) :
    (expenseDay < currentDay →
      rowStatus expenseDay currentDay = RowStatus.past) ∧
    (expenseDay = currentDay →
      rowStatus expenseDay currentDay = RowStatus.today) ∧
    (1 ≤ expenseDay - currentDay → expenseDay - currentDay ≤ 3 →
      rowStatus expenseDay currentDay = RowStatus.futureNear) ∧
    (4 ≤ expenseDay - currentDay → expenseDay - currentDay ≤ 5 →
      rowStatus expenseDay currentDay = RowStatus.futureMid) ∧
    (¬ expenseDay < currentDay → expenseDay ≠ currentDay →
      ¬ (1 ≤ expenseDay - currentDay ∧ expenseDay - currentDay ≤ 3) →
      ¬ (4 ≤ expenseDay - currentDay ∧ expenseDay - currentDay ≤ 5) →
      rowStatus expenseDay currentDay = RowStatus.unmarked) := by
  simp only [rowStatus]
  refine ⟨?_, ?_, ?_, ?_, ?_⟩ <;> intros <;> split_ifs <;>
    first
      | rfl
      | omega

/-- C9 witness: concrete classifications at current day 5. -/
theorem rowStatus_classification_witness :
    rowStatus 3 5 = RowStatus.past ∧ rowStatus 5 5 = RowStatus.today ∧
      rowStatus 7 5 = RowStatus.futureNear ∧
      rowStatus 10 5 = RowStatus.futureMid ∧
      rowStatus 28 5 = RowStatus.unmarked :=
  ⟨(rowStatus_classification 3 5).1 (by decide),
   (rowStatus_classification 5 5).2.1 rfl,
   (rowStatus_classification 7 5).2.2.1 (by decide) (by decide),
   (rowStatus_classification 10 5).2.2.2.1 (by decide) (by decide),
   (rowStatus_classification 28 5).2.2.2.2 (by decide) (by decide)
     (by decide) (by decide)⟩

/-- C3 counterexample: with category total -5 and grand total -5 (reachable,
since the add command never validates the sign of the amount), the grand
total is non-zero yet the computed percentage is 0, not
100 * categoryTotal / grandTotal = 100. -/
theorem percentageOf_claim_cex :
    (-5 : ℚ) ≠ 0 ∧ percentageOf (-5) (-5) = 0 ∧
      100 * (-5 : ℚ) / (-5) = 100 ∧ percentageOf (-5) (-5) ≠ 100 := by
  refine ⟨by norm_num, ?_, by norm_num, ?_⟩
  · rw [percentageOf_nonpos _ (by norm_num)]
  · rw [percentageOf_nonpos _ (by norm_num)]
    norm_num

/-- C3 amended: the computed percentage is 0 whenever the grand total is not
strictly positive (in particular whenever it is 0), and equals
100 * categoryTotal / grandTotal whenever the grand total is strictly
positive; the division is performed only under the strict positivity guard,
so never when the grand total is zero. -/
theorem percentageOf_guard (categoryTotal totalAmount : ℚ) :
    (totalAmount ≤ 0 → percentageOf categoryTotal totalAmount = 0) ∧
    (0 < totalAmount →
      percentageOf categoryTotal totalAmount =
        100 * categoryTotal / totalAmount) := by
  constructor
  · intro h
    exact percentageOf_nonpos _ h
  · intro h
    unfold percentageOf
    rw [if_pos h]
    ring

/-- C3 witness: the amended statement at the concrete totals (3, -2), (3, 0)
and (3, 2). -/
theorem percentageOf_guard_witness :
    percentageOf 3 (-2) = 0 ∧ percentageOf 3 0 = 0 ∧
      percentageOf 3 2 = 100 * 3 / 2 :=
  ⟨(percentageOf_guard 3 (-2)).1 (by norm_num),
   (percentageOf_guard 3 0).1 (by norm_num),
   (percentageOf_guard 3 2).2 (by norm_num)⟩

/-- C5: the chart ordering produced by the descending sort of the
renderExpenseTable comparator lists the categories in non-increasing order
of total amount: for any category appearing before another, its total is
greater than or equal to the later total. -/
theorem sortByTotalDesc_nonincreasing (categoryTotalsMap : String → ℚ)
    (categories : List String) :
    (sortByTotalDesc categoryTotalsMap categories).Pairwise
      (fun a b => categoryTotalsMap b ≤ categoryTotalsMap a) :=
  List.sorted_insertionSort (chartLe categoryTotalsMap) categories

/-- Helper: Rat.floor agrees with the floor of the FloorRing instance on ℚ,
which is built from it. -/
theorem ratFloor_eq_intFloor (q : ℚ) : Rat.floor q = ⌊q⌋ :=
  (Rat.floor_def' q).trans Rat.floor_def.symm

/-- Helper: Go math.Round never turns a nonnegative value negative. -/
theorem mathRound_nonneg {x : ℚ} (h : 0 ≤ x) : 0 ≤ mathRound x := by
  unfold mathRound
  rw [if_neg (not_lt.mpr h), ratFloor_eq_intFloor]
  exact Int.floor_nonneg.mpr (by linarith)

/-- Helper: the guarded percentage of a nonnegative category total is
nonnegative, whatever the grand total. -/
theorem percentageOf_nonneg {categoryTotal : ℚ} (totalAmount : ℚ)
    (h : 0 ≤ categoryTotal) : 0 ≤ percentageOf categoryTotal totalAmount := by
  unfold percentageOf
  split_ifs with hg
  · positivity
  · exact le_refl 0

/-- Helper: with a nonnegative category total, a nonnegative remaining
budget and a nonnegative width, the clipped segment is nonnegative, so the
strings.Repeat panic cannot fire. -/
theorem segmentOf_nonneg (W : ℤ) (m : String → ℚ) (g : ℚ) (cat : String)
    (rem : ℤ) (hm : 0 ≤ m cat) (hrem : 0 ≤ rem) (hW : 0 ≤ W) :
    0 ≤ segmentOf W m g cat rem := by
  unfold segmentOf
  refine le_min (mathRound_nonneg ?_) hrem
  have hp := percentageOf_nonneg g hm
  have hWq : (0 : ℚ) ≤ (W : ℚ) := by exact_mod_cast hW
  positivity

/-- Helper: when every category total is nonnegative, the loop never reaches
a negative repeat count, and the chunks it writes sum to the starting
remaining width: each segment is clipped to the remaining budget and the
last category absorbs any leftover. -/
theorem coloredLineChunks_some_sum (W : ℤ) (m : String → ℚ) (g : ℚ)
    (hW : 0 ≤ W) :
    ∀ (cats : List String), cats ≠ [] → (∀ c ∈ cats, 0 ≤ m c) →
      ∀ rem : ℤ, 0 ≤ rem →
        ∃ chunks, coloredLineChunks W m g cats rem = some chunks ∧
          ((chunks.map Prod.snd).sum = rem) := by
  intro cats
  induction cats with
  | nil => intro h; exact absurd rfl h
  | cons c rest ih =>
    intro _ hnn rem hrem
    have hs0 : 0 ≤ segmentOf W m g c rem :=
      segmentOf_nonneg W m g c rem (hnn c (List.mem_cons_self c rest)) hrem hW
    have hsle : segmentOf W m g c rem ≤ rem := min_le_right _ _
    simp only [coloredLineChunks]
    rw [if_neg (not_lt.mpr hs0)]
    by_cases hr : rest = []
    · subst hr
      simp only [List.isEmpty_nil, true_and]
      split_ifs with h
      · refine ⟨[(c, segmentOf W m g c rem),
          (c, rem - segmentOf W m g c rem)], rfl, ?_⟩
        simp only [List.map_cons, List.map_nil, List.sum_cons, List.sum_nil]
        ring
      · refine ⟨[(c, segmentOf W m g c rem)], ?_, ?_⟩
        · simp [coloredLineChunks]
        · simp only [List.map_cons, List.map_nil, List.sum_cons, List.sum_nil]
          omega
    · have hef : rest.isEmpty = false := by
        cases rest with
        | nil => exact absurd rfl hr
        | cons x xs => rfl
      rw [if_neg (by simp [hef])]
      obtain ⟨tail, htail, hsum⟩ := ih hr
        (fun x hx => hnn x (List.mem_cons_of_mem c hx))
        (rem - segmentOf W m g c rem) (by omega)
      refine ⟨(c, segmentOf W m g c rem) :: tail, ?_, ?_⟩
      · rw [htail]
        rfl
      · simp only [List.map_cons, List.sum_cons, hsum]
        ring

/-- C1 counterexample: category totals Food 10 and Bad -1 (grand total 9)
are reachable because the add command never validates the sign of the
amount.  At width 80, Food is allocated min(89, 80) = 80 columns, and Bad
then gets segment min(round(-80/9), 0) = -9, on which strings.Repeat panics
(modelled as none): the renderer crashes mid-loop and produces no chunk
list at all, so no segment lengths sum to 80. -/
theorem generateColoredLine_panic_cex :
    generateColoredLine ["Food", "Bad"]
        (fun c => if c = "Food" then (10 : ℚ) else -1) 9 80 = none ∧
      ¬ ∃ chunks,
          generateColoredLine ["Food", "Bad"]
              (fun c => if c = "Food" then (10 : ℚ) else -1) 9 80 =
            some chunks ∧ ((chunks.map Prod.snd).sum = 80) := by
  have hpF : percentageOf
      ((fun c => if c = "Food" then (10 : ℚ) else -1) "Food") 9 = 1000 / 9 := by
    norm_num [percentageOf]
  have hpB : percentageOf
      ((fun c => if c = "Food" then (10 : ℚ) else -1) "Bad") 9 = -(100 / 9) := by
    have hbf : ((fun c => if c = "Food" then (10 : ℚ) else -1) "Bad")
        = -1 := by
      show (if ("Bad" : String) = "Food" then (10 : ℚ) else -1) = -1
      rw [if_neg (by decide)]
    rw [hbf]
    norm_num [percentageOf]
  have hrF : mathRound ((1000 / 9 : ℚ) / 100 * ((80 : ℤ) : ℚ)) = 89 := by
    unfold mathRound
    rw [if_neg (by norm_num), ratFloor_eq_intFloor,
      show ((1000 / 9 : ℚ) / 100 * ((80 : ℤ) : ℚ) + 1 / 2) = 1609 / 18 by
        norm_num,
      Int.floor_eq_iff]
    constructor <;> norm_num
  have hrB : mathRound (-(100 / 9 : ℚ) / 100 * ((80 : ℤ) : ℚ)) = -9 := by
    unfold mathRound
    rw [if_pos (by norm_num), ratFloor_eq_intFloor,
      show (-(-(100 / 9 : ℚ) / 100 * ((80 : ℤ) : ℚ)) + 1 / 2) = 169 / 18 by
        norm_num,
      show ⌊(169 / 18 : ℚ)⌋ = 9 by
        rw [Int.floor_eq_iff]
        constructor <;> norm_num]
  have hsF : segmentOf 80 (fun c => if c = "Food" then (10 : ℚ) else -1) 9
      "Food" 80 = 80 := by
    unfold segmentOf
    rw [hpF, hrF]
    norm_num
  have hsB : segmentOf 80 (fun c => if c = "Food" then (10 : ℚ) else -1) 9
      "Bad" 0 = -9 := by
    unfold segmentOf
    rw [hpB, hrB]
    norm_num
  have hmain : generateColoredLine ["Food", "Bad"]
      (fun c => if c = "Food" then (10 : ℚ) else -1) 9 80 = none := by
    unfold generateColoredLine
    simp only [coloredLineChunks]
    rw [hsF, show (80 : ℤ) - 80 = 0 from by norm_num, hsB,
      if_neg (by norm_num : ¬ (80 : ℤ) < 0),
      if_neg (by simp : ¬ ((["Bad"] : List String).isEmpty = true ∧
        (0 : ℤ) < 0)),
      if_pos (by norm_num : (-9 : ℤ) < 0)]
    rfl
  refine ⟨hmain, ?_⟩
  rintro ⟨chunks, hc, _⟩
  rw [hmain] at hc
  exact Option.noConfusion hc

/-- C1 amended: for every non-empty category list whose totals are all
nonnegative, any grand total and any width W of at least 1, the loop never
reaches strings.Repeat with a negative count, and the chunk lengths of the
colored line, including the remainder expansion on the last category, sum
to exactly W; with a negative category total the program can instead panic
mid-loop and render nothing. -/
theorem generateColoredLine_sum_width (categories : List String)
    (categoryTotalsMap : String → ℚ) (totalAmount : ℚ) (totalLineWidth : ℤ)
    (hnn : ∀ c ∈ categories, 0 ≤ categoryTotalsMap c)
    (hne : categories ≠ []) (hW : 1 ≤ totalLineWidth) :
    ∃ chunks,
      generateColoredLine categories categoryTotalsMap totalAmount
          totalLineWidth = some chunks ∧
        (chunks.map Prod.snd).sum = totalLineWidth :=
  coloredLineChunks_some_sum totalLineWidth categoryTotalsMap totalAmount
    (by omega) categories hne hnn totalLineWidth (by omega)

/-- C1 witness: the worked example of the spec, totals Food 40 and
Uncategorized 60, grand total 100, width 10. -/
theorem generateColoredLine_sum_width_witness :
    (∀ c ∈ (["Uncategorized", "Food"] : List String),
        0 ≤ (fun c => if c = "Food" then (40 : ℚ) else 60) c) ∧
      (["Uncategorized", "Food"] : List String) ≠ [] ∧ (1 : ℤ) ≤ 10 ∧
      ∃ chunks,
        generateColoredLine ["Uncategorized", "Food"]
            (fun c => if c = "Food" then (40 : ℚ) else 60) 100 10 =
          some chunks ∧ (chunks.map Prod.snd).sum = 10 :=
  ⟨by decide, by decide, by decide,
    generateColoredLine_sum_width ["Uncategorized", "Food"]
      (fun c => if c = "Food" then (40 : ℚ) else 60) 100 10 (by decide)
      (by decide) (by decide)⟩

/-- Helper: Go math.Round of zero is zero. -/
theorem mathRound_zero : mathRound 0 = 0 := by
  unfold mathRound
  rw [if_neg (lt_irrefl (0 : ℚ)), zero_add, ratFloor_eq_intFloor,
    Int.floor_eq_zero_iff]
  constructor <;> norm_num

/-- Helper: under a non-positive grand total every percentage is 0, every
clipped segment is 0 (so the strings.Repeat panic cannot fire), and the
loop reaches the last category with the full budget intact, which the
remainder expansion then writes in one run. -/
theorem coloredLineChunks_nonpos (W : ℤ) (m : String → ℚ) {g : ℚ}
    (hg : g ≤ 0) :
    ∀ (cats : List String) (hne : cats ≠ []) (rem : ℤ), 0 < rem →
      coloredLineChunks W m g cats rem =
        some ((cats.map fun c => (c, (0 : ℤ))) ++
          [(cats.getLast hne, rem)]) := by
  have key : ∀ (c : String) (r : ℤ), 0 ≤ r → segmentOf W m g c r = 0 := by
    intro c r hr
    unfold segmentOf
    rw [percentageOf_nonpos _ hg]
    have h0 : (0 : ℚ) / 100 * (W : ℚ) = 0 := by ring
    rw [h0, mathRound_zero]
    exact min_eq_left hr
  intro cats
  induction cats with
  | nil => intro h; exact absurd rfl h
  | cons c rest ih =>
    intro hne rem hrem
    simp only [coloredLineChunks]
    rw [key c rem (le_of_lt hrem), if_neg (lt_irrefl (0 : ℤ))]
    by_cases hr : rest = []
    · subst hr
      rw [if_pos ⟨rfl, by omega⟩]
      simp
    · have hef : rest.isEmpty = false := by
        cases rest with
        | nil => exact absurd rfl hr
        | cons x xs => rfl
      rw [if_neg (by simp [hef]), sub_zero, ih hr rem hrem]
      simp [List.getLast_cons hr]

/-- C10: when the grand total is not strictly positive and the category list
is non-empty, the renderer completes (every repeat count is 0 or the
positive remainder, so no panic), every category gets a zero-length segment
and the last category in chart order is expanded to the whole width W, so
the entire line is written in the last category's color. -/
theorem generateColoredLine_nonpos_total (categories : List String)
    (categoryTotalsMap : String → ℚ) (totalAmount : ℚ) (totalLineWidth : ℤ)
    (hg : totalAmount ≤ 0) (hne : categories ≠ []) (hW : 1 ≤ totalLineWidth) :
    generateColoredLine categories categoryTotalsMap totalAmount
        totalLineWidth =
      some ((categories.map fun c => (c, (0 : ℤ))) ++
        [(categories.getLast hne, totalLineWidth)]) :=
  coloredLineChunks_nonpos totalLineWidth categoryTotalsMap hg categories hne
    totalLineWidth (by omega)

/-- C10 witness: two categories with zero totals at width 80: both segments
are empty and the final chunk paints all 80 columns in the last category. -/
theorem generateColoredLine_nonpos_total_witness :
    generateColoredLine ["a", "b"] (fun _ => (0 : ℚ)) 0 80 =
      some [("a", (0 : ℤ)), ("b", 0), ("b", 80)] := by
  have h := generateColoredLine_nonpos_total ["a", "b"] (fun _ => (0 : ℚ)) 0
    80 (by norm_num) (by decide) (by norm_num)
  simpa using h

/-- Helper: the i-th allocated segment, for any starting budget rem, is the
clipped rounding against rem minus everything allocated before it. -/
theorem segmentLengths_getD (W : ℤ) (m : String → ℚ) (g : ℚ) :
    ∀ (cats : List String) (rem : ℤ) (i : ℕ), i < cats.length →
      (segmentLengths W m g cats rem).getD i 0 =
        min (mathRound (percentageOf (m (cats.getD i "")) g / 100 * (W : ℚ)))
          (rem - ((segmentLengths W m g cats rem).take i).sum) := by
  intro cats
  induction cats with
  | nil =>
    intro rem i h
    simp at h
  | cons c rest ih =>
    intro rem i h
    cases i with
    | zero =>
      simp [segmentLengths]
    | succ i =>
      simp only [segmentLengths, List.getD_cons_succ, List.take_succ_cons,
        List.sum_cons]
      rw [ih _ i (by simpa using h), sub_sub]

/-- C2: in chart order, each allocated segment equals the minimum of the
rounded proportional share round(percentage/100 * W) and the width remaining
after all previously allocated segments, and hence never exceeds that
remaining budget. -/
theorem segmentLengths_alloc (categories : List String)
    (categoryTotalsMap : String → ℚ) (totalAmount : ℚ) (totalLineWidth : ℤ)
    (i : ℕ) (h : i < categories.length) :
    (segmentLengths totalLineWidth categoryTotalsMap totalAmount categories
        totalLineWidth).getD i 0 =
      min
        (mathRound (percentageOf (categoryTotalsMap (categories.getD i ""))
          totalAmount / 100 * (totalLineWidth : ℚ)))
        (totalLineWidth -
          ((segmentLengths totalLineWidth categoryTotalsMap totalAmount
              categories totalLineWidth).take i).sum) ∧
    (segmentLengths totalLineWidth categoryTotalsMap totalAmount categories
        totalLineWidth).getD i 0 ≤
      totalLineWidth -
        ((segmentLengths totalLineWidth categoryTotalsMap totalAmount
            categories totalLineWidth).take i).sum := by
  have hmain := segmentLengths_getD totalLineWidth categoryTotalsMap
    totalAmount categories totalLineWidth i h
  exact ⟨hmain, hmain ▸ min_le_right _ _⟩

/-- C2 witness: the spec example at width 10, instantiated at the second
category (Food, 40 of 100). -/
theorem segmentLengths_alloc_witness :
    1 < (["Uncategorized", "Food"] : List String).length ∧
      ((segmentLengths 10 (fun c => if c = "Food" then (40 : ℚ) else 60) 100
          ["Uncategorized", "Food"] 10).getD 1 0 =
        min
          (mathRound (percentageOf
            ((fun c => if c = "Food" then (40 : ℚ) else 60)
              ((["Uncategorized", "Food"] : List String).getD 1 "")) 100 /
              100 * ((10 : ℤ) : ℚ)))
          (10 -
            ((segmentLengths 10 (fun c => if c = "Food" then (40 : ℚ) else 60)
                100 ["Uncategorized", "Food"] 10).take 1).sum) ∧
        (segmentLengths 10 (fun c => if c = "Food" then (40 : ℚ) else 60) 100
            ["Uncategorized", "Food"] 10).getD 1 0 ≤
          10 -
            ((segmentLengths 10 (fun c => if c = "Food" then (40 : ℚ) else 60)
                100 ["Uncategorized", "Food"] 10).take 1).sum) :=
  ⟨by decide,
    segmentLengths_alloc ["Uncategorized", "Food"]
      (fun c => if c = "Food" then (40 : ℚ) else 60) 100 10 1 (by decide)⟩

/-- C4 counterexample: with the spec's own worked example, totals Food 40
and Uncategorized 60, the category order used by renderExpenseTable and
printSummaryTotals in list.go is the descending-by-amount order
[Uncategorized, Food], in which Uncategorized comes first, not last, and
which is not case-insensitively alphabetical. -/
theorem summaryOrder_listgo_cex :
    sortByTotalDesc (fun c => if c = "Food" then (40 : ℚ) else 60)
        ["Food", "Uncategorized"] = ["Uncategorized", "Food"] ∧
      ¬ (["Uncategorized", "Food"] : List String).Pairwise
          (fun a b => a ≠ "Uncategorized" ∧
            (b = "Uncategorized" ∨ a.toLower ≤ b.toLower)) := by
  constructor
  · decide
  · intro hp
    rcases List.pairwise_cons.mp hp with ⟨h1, _⟩
    exact (h1 "Food" (by simp)).1 rfl

/-- C4 amended: the per-category summary order of the main.go lsCmd variant
(sort.Slice with its Uncategorized-aware comparator) is case-insensitively
alphabetical with Uncategorized after every other category; the list.go
variant instead prints the summary in chart order (non-increasing amount). -/
theorem summaryOrder_alpha_uncat_last (categories : List String)
    (h : categories.Nodup) :
    (summaryOrder categories).Pairwise
      (fun a b => a ≠ "Uncategorized" ∧
        (b = "Uncategorized" ∨ a.toLower ≤ b.toLower)) := by
  have hs : (summaryOrder categories).Pairwise lsLe :=
    List.sorted_insertionSort lsLe categories
  have hnd : (summaryOrder categories).Pairwise (fun a b => a ≠ b) :=
    (List.Perm.nodup_iff (List.perm_insertionSort lsLe categories)).mpr h
  refine (hs.and hnd).imp ?_
  rintro a b ⟨hle, hab⟩
  unfold lsLe at hle
  by_cases ha : a = "Uncategorized"
  · exfalso
    by_cases hb : b = "Uncategorized"
    · exact hab (ha.trans hb.symm)
    · unfold lsLess at hle
      rw [if_neg hb, if_pos ha] at hle
      exact absurd hle (by simp)
  · refine ⟨ha, ?_⟩
    by_cases hb : b = "Uncategorized"
    · exact Or.inl hb
    · right
      unfold lsLess at hle
      rw [if_neg hb, if_neg ha] at hle
      exact not_lt.mp (of_decide_eq_false hle)

/-- C4 witness: three distinct categories sort to [A, b, Uncategorized]. -/
theorem summaryOrder_alpha_uncat_last_witness :
    (["b", "Uncategorized", "A"] : List String).Nodup ∧
      (summaryOrder ["b", "Uncategorized", "A"]).Pairwise
        (fun a b => a ≠ "Uncategorized" ∧
          (b = "Uncategorized" ∨ a.toLower ≤ b.toLower)) :=
  ⟨by decide, summaryOrder_alpha_uncat_last ["b", "Uncategorized", "A"]
    (by decide)⟩

/-- Helper: updating the map at a key outside the list leaves the mapped
list unchanged. -/
theorem map_update_not_mem (l : List String) (f : String → ℚ) (k : String)
    (v : ℚ) (hk : k ∉ l) :
    l.map (Function.update f k v) = l.map f := by
  apply List.map_congr_left
  intro x hx
  have hxk : x ≠ k := by
    rintro rfl
    exact hk hx
  exact Function.update_noteq hxk _ _

/-- Helper: adding an amount at a key already in a duplicate-free list
raises the sum over the list by exactly that amount. -/
theorem sum_map_update_mem (l : List String) (f : String → ℚ) (k : String)
    (a : ℚ) (hnd : l.Nodup) (hk : k ∈ l) :
    (l.map (Function.update f k (f k + a))).sum = (l.map f).sum + a := by
  induction l with
  | nil => simp at hk
  | cons c rest ih =>
    rcases List.nodup_cons.mp hnd with ⟨hcr, hndr⟩
    by_cases hck : c = k
    · subst hck
      rw [List.map_cons, List.map_cons, List.sum_cons, List.sum_cons,
        Function.update_same, map_update_not_mem rest f c _ hcr]
      ring
    · have hkr : k ∈ rest := by
        rcases List.mem_cons.mp hk with h | h
        · exact absurd h.symm hck
        · exact h
      rw [List.map_cons, List.map_cons, List.sum_cons, List.sum_cons,
        Function.update_noteq hck _ _, ih hndr hkr]
      ring

/-- Invariant of the lsCmd aggregation loop: the recorded category names are
duplicate-free, the totals map is zero outside them, and the totals over
them sum to the running grand total. -/
def AggInv (acc : LsAgg) : Prop :=
  acc.uniqueCategories.Nodup ∧
  (∀ c, c ∉ acc.uniqueCategories → acc.categoryTotalsMap c = 0) ∧
  (acc.uniqueCategories.map acc.categoryTotalsMap).sum = acc.totalAmount

/-- Helper: one row of the aggregation loop preserves the invariant. -/
theorem aggInv_step (acc : LsAgg) (e : Expense) (h : AggInv acc) :
    AggInv (lsAggStep acc e) := by
  obtain ⟨hnd, hz, hsum⟩ := h
  by_cases hmem : displayCategory e.category ∈ acc.uniqueCategories
  · have h1 : lsAggStep acc e =
        { categoryTotalsMap := Function.update acc.categoryTotalsMap
            (displayCategory e.category)
            (acc.categoryTotalsMap (displayCategory e.category) + e.amount)
          uniqueCategories := acc.uniqueCategories
          totalAmount := acc.totalAmount + e.amount } := by
      simp only [lsAggStep]
      rw [if_pos hmem]
    unfold AggInv
    rw [h1]
    dsimp only
    refine ⟨hnd, ?_, ?_⟩
    · intro c hc
      have hck : c ≠ displayCategory e.category := by
        rintro rfl
        exact hc hmem
      rw [Function.update_noteq hck _ _]
      exact hz c hc
    · rw [sum_map_update_mem _ _ _ _ hnd hmem, hsum]
  · have h1 : lsAggStep acc e =
        { categoryTotalsMap := Function.update acc.categoryTotalsMap
            (displayCategory e.category)
            (acc.categoryTotalsMap (displayCategory e.category) + e.amount)
          uniqueCategories :=
            acc.uniqueCategories ++ [displayCategory e.category]
          totalAmount := acc.totalAmount + e.amount } := by
      simp only [lsAggStep]
      rw [if_neg hmem]
    unfold AggInv
    rw [h1]
    dsimp only
    refine ⟨?_, ?_, ?_⟩
    · simp [List.nodup_append, hnd, hmem]
    · intro c hc
      rw [List.mem_append, not_or, List.mem_singleton] at hc
      rw [Function.update_noteq hc.2 _ _]
      exact hz c hc.1
    · rw [List.map_append, List.sum_append,
        map_update_not_mem _ _ _ _ hmem, List.map_singleton,
        List.sum_singleton, Function.update_same, hz _ hmem, hsum]
      ring

/-- Helper: the invariant is preserved across the whole fold. -/
theorem aggInv_foldl (es : List Expense) :
    ∀ acc : LsAgg, AggInv acc → AggInv (es.foldl lsAggStep acc) := by
  induction es with
  | nil => intro acc h; exact h
  | cons e rest ih => intro acc h; exact ih _ (aggInv_step acc e h)

/-- Helper: the invariant holds of the completed lsCmd aggregation. -/
theorem aggInv_lsAggregate (es : List Expense) : AggInv (lsAggregate es) :=
  aggInv_foldl es _ ⟨List.nodup_nil, fun _ _ => rfl, rfl⟩

/-- C6: for every non-empty record list, the per-category totals of the
lsCmd aggregation (empty or absent categories folded into Uncategorized),
summed over the recorded category names, equal the grand total of all
amounts. -/
theorem lsAggregate_sum_eq_total (expenses : List Expense)
    (hne : expenses ≠ []) :
    ((lsAggregate expenses).uniqueCategories.map
        (lsAggregate expenses).categoryTotalsMap).sum =
      (lsAggregate expenses).totalAmount :=
  (aggInv_lsAggregate expenses).2.2

/-- C6 witness: the spec example records (A,10,Food), (B,30,Food),
(C,60,empty category). -/
theorem lsAggregate_sum_eq_total_witness :
    ([⟨1, "A", 10, 3, some "Food"⟩, ⟨2, "B", 30, 4, some "Food"⟩,
        ⟨3, "C", 60, 5, some ""⟩] : List Expense) ≠ [] ∧
      ((lsAggregate [⟨1, "A", 10, 3, some "Food"⟩,
          ⟨2, "B", 30, 4, some "Food"⟩,
          ⟨3, "C", 60, 5, some ""⟩]).uniqueCategories.map
        (lsAggregate [⟨1, "A", 10, 3, some "Food"⟩,
          ⟨2, "B", 30, 4, some "Food"⟩,
          ⟨3, "C", 60, 5, some ""⟩]).categoryTotalsMap).sum =
      (lsAggregate [⟨1, "A", 10, 3, some "Food"⟩,
          ⟨2, "B", 30, 4, some "Food"⟩,
          ⟨3, "C", 60, 5, some ""⟩]).totalAmount :=
  ⟨by simp, lsAggregate_sum_eq_total _ (by simp)⟩

/-- C7: the add command rejects every insertion whose title is empty or
whose day lies outside [1, 28], terminating with a diagnostic and leaving
the store untouched; with a non-empty title and a day in [1, 28] it
succeeds by appending exactly one new record. -/
theorem addCmd_validation (title : String) (amount : ℚ) (day : ℤ)
    (category : String) (st : DBState) :
    ((title = "" ∨ day < 1 ∨ 28 < day) →
      ∃ msg, addCmd title amount day category st = Except.error msg) ∧
    (title ≠ "" → 1 ≤ day → day ≤ 28 →
      addCmd title amount day category st =
        Except.ok
          { records := st.records ++
              [{ id := st.seq + 1, title := title, amount := amount,
                 day := day, category := some category }]
            seq := st.seq + 1 }) := by
  constructor
  · intro h
    unfold addCmd
    by_cases ht : title = ""
    · exact ⟨_, by rw [if_pos ht]⟩
    · have hd : day < 1 ∨ day > 28 := by
        rcases h with h | h | h
        · exact absurd h ht
        · exact Or.inl h
        · exact Or.inr h
      exact ⟨_, by rw [if_neg ht, if_pos hd]⟩
  · intro ht h1 h2
    unfold addCmd
    rw [if_neg ht, if_neg (by omega : ¬(day < 1 ∨ day > 28))]

/-- C7 witness: days 0, 29 and -1 and the empty title are each rejected;
days 1 and 28 are accepted and append exactly one record. -/
theorem addCmd_validation_witness :
    (∃ m, addCmd "Rent" 5 0 "" ⟨[], 0⟩ = Except.error m) ∧
      (∃ m, addCmd "Rent" 5 29 "" ⟨[], 0⟩ = Except.error m) ∧
      (∃ m, addCmd "Rent" 5 (-1) "" ⟨[], 0⟩ = Except.error m) ∧
      (∃ m, addCmd "" 5 3 "" ⟨[], 0⟩ = Except.error m) ∧
      addCmd "Rent" 5 1 "" ⟨[], 0⟩ =
        Except.ok ⟨[⟨1, "Rent", 5, 1, some ""⟩], 1⟩ ∧
      addCmd "Rent" 5 28 "" ⟨[], 0⟩ =
        Except.ok ⟨[⟨1, "Rent", 5, 28, some ""⟩], 1⟩ := by
  refine ⟨?_, ?_, ?_, ?_, ?_, ?_⟩
  · exact (addCmd_validation "Rent" 5 0 "" ⟨[], 0⟩).1 (by norm_num)
  · exact (addCmd_validation "Rent" 5 29 "" ⟨[], 0⟩).1 (by norm_num)
  · exact (addCmd_validation "Rent" 5 (-1) "" ⟨[], 0⟩).1 (by norm_num)
  · exact (addCmd_validation "" 5 3 "" ⟨[], 0⟩).1 (Or.inl rfl)
  · have h := (addCmd_validation "Rent" 5 1 "" ⟨[], 0⟩).2 (by decide)
      (by norm_num) (by norm_num)
    simpa using h
  · have h := (addCmd_validation "Rent" 5 28 "" ⟨[], 0⟩).2 (by decide)
      (by norm_num) (by norm_num)
    simpa using h

/-- C8: the clear command empties the store and resets the identifier
sequence exactly when the lowercased, whitespace-trimmed input line is y or
yes; on every other input the state is returned unchanged together with the
cancellation message rather than an error. -/
theorem clearCmd_confirmation (input : String) (st : DBState) :
    (clearCmd input st =
        ({ records := [], seq := 0 }, "All expenses have been deleted.") ↔
      (normalizeInput input = "y".data ∨ normalizeInput input = "yes".data)) ∧
    (¬ (normalizeInput input = "y".data ∨ normalizeInput input = "yes".data) →
      clearCmd input st = (st, "Operation cancelled.")) := by
  constructor
  · constructor
    · intro h
      by_contra hn
      unfold clearCmd at h
      rw [if_neg hn] at h
      have hmsg := congrArg Prod.snd h
      simp at hmsg
    · intro h
      unfold clearCmd
      rw [if_pos h]
  · intro h
    unfold clearCmd
    rw [if_neg h]

/-- C8 witness: an uppercase affirmative with trailing newline clears a
non-empty store and resets the sequence, while n and the empty input leave
it untouched with the cancellation message. -/
theorem clearCmd_confirmation_witness :
    clearCmd "YES\n" ⟨[⟨1, "A", 10, 3, none⟩], 4⟩ =
        ({ records := [], seq := 0 }, "All expenses have been deleted.") ∧
      clearCmd "n" ⟨[⟨1, "A", 10, 3, none⟩], 4⟩ =
        (⟨[⟨1, "A", 10, 3, none⟩], 4⟩, "Operation cancelled.") ∧
      clearCmd "" ⟨[⟨1, "A", 10, 3, none⟩], 4⟩ =
        (⟨[⟨1, "A", 10, 3, none⟩], 4⟩, "Operation cancelled.") :=
  ⟨(clearCmd_confirmation "YES\n" ⟨[⟨1, "A", 10, 3, none⟩], 4⟩).1.mpr
      (by decide),
    (clearCmd_confirmation "n" ⟨[⟨1, "A", 10, 3, none⟩], 4⟩).2 (by decide),
    (clearCmd_confirmation "" ⟨[⟨1, "A", 10, 3, none⟩], 4⟩).2 (by decide)⟩

end Monke
